import Mathlib

/-!
Shallow embedding of the tic-tac-toe Q-learning trainer
(source: src/tictactoe.py) and verification of its specification.

Boards are lists of characters: the underscore character marks an empty
cell, the letters X and O mark the agent and the computer opponent.
Python floats are modelled by rationals; the Python dict holding the
Q-table is modelled by a function from string keys to optional rationals.
Randomness (random.random and random.choice) is modelled by explicit
parameters: a rational draw for the epsilon comparison and natural-number
indices for the uniform choices.
-/

namespace TicTacToe

/-! ### Hyperparameters (tictactoe.py lines 8-13) -/

def ALPHA : ℚ := mkRat 3 10

def GAMMA : ℚ := mkRat 9 10

def EPSILON : ℚ := mkRat 1 5

def MIN_EPSILON : ℚ := mkRat 1 20

def EPSILON_DECAY : ℚ := mkRat 99995 100000

/-! ### Board primitives -/

/-- Python board[i]; out-of-range reads return a sentinel that is never a
cell value (in the trainer all boards have length 9, so reads are in range). -/
def cell (board : List Char) (i : Nat) : Char := board.getD i '?'

/-- QLearningPlayer.get_state: "".join(board). -/
def get_state (board : List Char) : String := String.mk board

/-- QLearningPlayer.get_valid_actions: indices of empty cells, ascending. -/
def get_valid_actions (board : List Char) : List Nat :=
  (List.range board.length).filter (fun i => cell board i == '_')

/-- The 8 winning lines of check_win. -/
def winLines : List (List Nat) :=
  [[0,1,2],[3,4,5],[6,7,8],[0,3,6],[1,4,7],[2,5,8],[0,4,8],[2,4,6]]

/-- check_win(board, symbol). -/
def check_win (board : List Char) (symbol : Char) : Bool :=
  winLines.any (fun line => line.all (fun i => cell board i == symbol))

/-- is_draw(board): Python tests only that no empty cell remains. -/
def is_draw (board : List Char) : Bool := ! board.contains '_'

/-! ### Q-table -/

/-- The Python dict self.q, as a partial map from string keys. -/
def QTable : Type := String → Option ℚ

/-- The composite key f-string "state:action". -/
def qkey (state : String) (action : Nat) : String :=
  state ++ ":" ++ toString action

/-- self.q.get(key, 0): lookup with default 0. -/
def qlookup (q : QTable) (state : String) (action : Nat) : ℚ :=
  (q (qkey state action)).getD 0

/-- Python max over a list with a default for the empty list.  In
choose_action the list is nonempty (so the default is never used there);
in update_q the default is the explicit default=0 argument. -/
def listMaxD (d : ℚ) : List ℚ → ℚ
  | [] => d
  | x :: xs => xs.foldl max x

/-- QLearningPlayer.choose_action.  `r` models random.random(), `kE` and
`kB` model the random.choice index in the explore and exploit branch. -/
def choose_action (q : QTable) (board : List Char) (explore : Bool)
    (eps r : ℚ) (kE kB : Nat) : Option Nat :=
  let state := get_state board
  let actions := get_valid_actions board
  if actions.isEmpty then none
  else if explore ∧ r < eps then
    some (actions.getD (kE % actions.length) 0)
  else
    let q_values := actions.map (fun a => (q (qkey state a)).getD 0)
    let max_q := listMaxD 0 q_values
    let best_actions :=
      ((actions.zip q_values).filter (fun p => p.2 == max_q)).map Prod.fst
    some (best_actions.getD (kB % best_actions.length) 0)

/-- Specification-side abbreviation: the maximum estimate over the valid
actions of a board (default 0 for unseen pairs), as described for the
exploit branch of chooseAction. -/
def greedyMax (q : QTable) (board : List Char) : ℚ :=
  listMaxD 0 ((get_valid_actions board).map
    (fun a => (q (qkey (get_state board) a)).getD 0))

/-- Specification-side abbreviation: the valid actions whose estimate
ties the maximum. -/
def greedyTies (q : QTable) (board : List Char) : List Nat :=
  (get_valid_actions board).filter
    (fun a => ((q (qkey (get_state board) a)).getD 0) == greedyMax q board)

/-- QLearningPlayer.update_q. -/
def update_q (q : QTable) (old_state : String) (action : Nat) (reward : ℚ)
    (next_state : String) (next_actions : List Nat) : QTable :=
  let key := qkey old_state action
  let old_q := (q key).getD 0
  let next_q :=
    listMaxD 0 (next_actions.map (fun a => (q (qkey next_state a)).getD 0))
  let new_q := old_q + ALPHA * (reward + GAMMA * next_q - old_q)
  fun k => if k = key then some new_q else q k

/-! ### Rule-based computer opponent -/

/-- One hypothetical scan of computer_move: for each index, place the
symbol, test for a win, and put the empty marker back, returning the
board as the loop leaves it together with the found index, if any. -/
def winScan (symbol : Char) : List Char → List Nat → List Char × Option Nat
  | board, [] => (board, none)
  | board, i :: rest =>
    let b1 := board.set i symbol
    if check_win b1 symbol then (b1.set i '_', some i)
    else winScan symbol (b1.set i '_') rest

/-- computer_move(board, symbol, player_symbol); `k` models the
random.choice index of the final fallback.  The returned board is the
board as the function leaves it. -/
def computer_move (board : List Char) (symbol player_symbol : Char)
    (k : Nat) : List Char × Option Nat :=
  let empty := get_valid_actions board
  if empty.isEmpty then (board, none)
  else
    let r1 := winScan symbol board empty
    match r1.2 with
    | some i => (r1.1, some i)
    | none =>
      let r2 := winScan player_symbol r1.1 empty
      match r2.2 with
      | some i => (r2.1, some i)
      | none =>
        match [0,2,6,8].find? (fun i => cell r2.1 i == '_') with
        | some i => (r2.1, some i)
        | none =>
          if cell r2.1 4 == '_' then (r2.1, some 4)
          else
            match [1,3,5,7].find? (fun i => cell r2.1 i == '_') with
            | some i => (r2.1, some i)
            | none => (r2.1, some (empty.getD (k % empty.length) 0))

/-- Specification-side restatement of the opponent policy (spec section
4.2, steps 1-5): a pure priority chain over the original board — first
winning cell in ascending order, else first blocking cell in ascending
order, else first empty corner in the order 0, 2, 6, 8, else the center,
else the first empty side in the order 1, 3, 5, 7.  Used only to compare
computer_move against the spec's description. -/
def computer_move_priority (board : List Char) (s p : Char) : Option Nat :=
  let empty := get_valid_actions board
  if empty.isEmpty then none
  else
    match empty.find? (fun i => check_win (board.set i s) s) with
    | some i => some i
    | none =>
      match empty.find? (fun i => check_win (board.set i p) p) with
      | some i => some i
      | none =>
        match [0,2,6,8].find? (fun i => cell board i == '_') with
        | some i => some i
        | none =>
          if cell board 4 == '_' then some 4
          else
            match [1,3,5,7].find? (fun i => cell board i == '_') with
            | some i => some i
            | none => none

/-! ### Trainer episode loop -/

/-- self.board[action] = mark: the raw, unchecked cell assignment that is
the only board mutation in the episode loop. -/
def apply_move (board : List Char) (action : Nat) (mark : Char) : List Char :=
  board.set action mark

/-- The random draws consumed by one iteration of the episode loop. -/
structure AgentRand where
  r : ℚ
  kE : Nat
  kB : Nat
  kC : Nat

structure Stats where
  games : Nat
  wins : Nat
  draws : Nat
  deriving Repr, DecidableEq

inductive Outcome where
  | agentWin
  | draw
  | agentLose
  | noMove
  | fuelOut
  deriving Repr, DecidableEq

structure GameResult where
  q : QTable
  board : List Char
  history : List (String × Nat)
  stats : Stats
  outcome : Outcome

/-- The while-loop body of Trainer.play_one_game (lines 142-193),
iterated on fuel (the real loop always terminates because the board
fills; fuel exhaustion is reported as a distinct outcome). -/
def playLoop (rand : Nat → AgentRand) (eps : ℚ) :
    Nat → Nat → List Char → QTable → List (String × Nat) → Stats → GameResult
  | 0, _, board, q, history, stats => ⟨q, board, history, stats, .fuelOut⟩
  | fuel+1, step, board, q, history, stats =>
    let state := get_state board
    match choose_action q board true eps (rand step).r (rand step).kE (rand step).kB with
    | none => ⟨q, board, history, stats, .noMove⟩
    | some action =>
      let board1 := apply_move board action 'X'
      let history1 := history ++ [(state, action)]
      if check_win board1 'X' then
        ⟨(history1.reverse).foldl
            (fun qq p => update_q qq p.1 p.2 1 (get_state board1) []) q,
          board1, history1,
          ⟨stats.games + 1, stats.wins + 1, stats.draws⟩, .agentWin⟩
      else if is_draw board1 then
        ⟨history1.foldl
            (fun qq p => update_q qq p.1 p.2 (mkRat 1 5) (get_state board1) []) q,
          board1, history1,
          ⟨stats.games + 1, stats.wins, stats.draws + 1⟩, .draw⟩
      else
        let cm := computer_move board1 'O' 'X' (rand step).kC
        match cm.2 with
        | none => ⟨q, cm.1, history1, stats, .noMove⟩
        | some ca =>
          let board2 := apply_move cm.1 ca 'O'
          if check_win board2 'O' then
            let last := history1.getLastD ("", 0)
            ⟨update_q q last.1 last.2 (-1) (get_state board2) [],
              board2, history1,
              ⟨stats.games + 1, stats.wins, stats.draws⟩, .agentLose⟩
          else if is_draw board2 then
            ⟨history1.foldl
                (fun qq p => update_q qq p.1 p.2 (mkRat 1 5) (get_state board2) []) q,
              board2, history1,
              ⟨stats.games + 1, stats.wins, stats.draws + 1⟩, .draw⟩
          else
            playLoop rand eps fuel (step+1) board2 q history1 stats

/-- The post-loop epsilon decay (line 195):
EPSILON = max(MIN_EPSILON, EPSILON * EPSILON_DECAY). -/
def nextEpsilon (e : ℚ) : ℚ := max MIN_EPSILON (e * EPSILON_DECAY)

/-- Trainer.play_one_game: reset the board, run the episode loop, then
decay epsilon exactly once.  Returns the episode result and the new
epsilon. -/
def play_one_game (rand : Nat → AgentRand) (eps : ℚ) (fuel : Nat)
    (q : QTable) (stats : Stats) : GameResult × ℚ :=
  (playLoop rand eps fuel 0 (List.replicate 9 '_') q [] stats, nextEpsilon eps)

/-- The exploration rate across episodes, starting from the initial
EPSILON and decayed once per episode. -/
def epsilonSeq : Nat → ℚ
  | 0 => EPSILON
  | n+1 => nextEpsilon (epsilonSeq n)

/-! ### Helper lemmas -/

lemma set_restore : ∀ (b : List Char) (i : Nat), cell b i = '_' → b.set i '_' = b := by
  intro b
  induction b with
  | nil => intro i _; rfl
  | cons c t ih =>
    intro i h
    cases i with
    | zero =>
      simp only [cell, List.getD_cons_zero] at h
      simp [h]
    | succ n =>
      simp only [cell, List.getD_cons_succ] at h
      simp only [List.set_cons_succ, List.cons.injEq, true_and]
      exact ih n h

lemma mem_get_valid_actions {b : List Char} {i : Nat}
    (h : i ∈ get_valid_actions b) : i < b.length ∧ cell b i = '_' := by
  unfold get_valid_actions at h
  rw [List.mem_filter] at h
  refine ⟨List.mem_range.mp h.1, ?_⟩
  simpa using h.2

lemma winScan_eq (s : Char) : ∀ (l : List Nat) (b : List Char),
    (∀ i ∈ l, cell b i = '_') →
    winScan s b l = (b, l.find? (fun i => check_win (b.set i s) s)) := by
  intro l
  induction l with
  | nil => intro b _; rfl
  | cons i rest ih =>
    intro b h
    have hi : cell b i = '_' := h i (List.mem_cons_self i rest)
    have hrestore : (b.set i s).set i '_' = b := by
      rw [List.set_set]; exact set_restore b i hi
    show (if check_win (b.set i s) s then ((b.set i s).set i '_', some i)
          else winScan s ((b.set i s).set i '_') rest) = _
    rw [hrestore]
    simp only [List.find?]
    cases hc : check_win (b.set i s) s with
    | true => simp
    | false =>
      simp only [Bool.false_eq_true, if_false]
      exact ih b (fun j hj => h j (List.mem_cons_of_mem i hj))

lemma no_pattern_no_empty (board : List Char) (h9 : board.length = 9)
    (hc : [0,2,6,8].find? (fun i => cell board i == '_') = none)
    (h4 : (cell board 4 == '_') = false)
    (hs : [1,3,5,7].find? (fun i => cell board i == '_') = none) :
    get_valid_actions board = [] := by
  rw [List.eq_nil_iff_forall_not_mem]
  intro i hi
  obtain ⟨hlt, hcell⟩ := mem_get_valid_actions hi
  rw [h9] at hlt
  have hval : (cell board i == '_') = true := by simpa using hcell
  rw [List.find?_eq_none] at hc hs
  interval_cases i
  · exact hc 0 (by simp) hval
  · exact hs 1 (by simp) hval
  · exact hc 2 (by simp) hval
  · exact hs 3 (by simp) hval
  · rw [h4] at hval; exact Bool.false_ne_true hval
  · exact hs 5 (by simp) hval
  · exact hc 6 (by simp) hval
  · exact hs 7 (by simp) hval
  · exact hc 8 (by simp) hval

lemma computer_move_fst (board : List Char) (s p : Char) (k : Nat) :
    (computer_move board s p k).1 = board := by
  have hv : ∀ i ∈ get_valid_actions board, cell board i = '_' :=
    fun i hi => (mem_get_valid_actions hi).2
  simp only [computer_move]
  by_cases he : (get_valid_actions board).isEmpty = true
  · simp [he]
  · rw [if_neg he, winScan_eq s _ board hv]
    dsimp only
    cases hf1 : List.find? (fun i => check_win (board.set i s) s)
        (get_valid_actions board) with
    | some i => rfl
    | none =>
      rw [winScan_eq p _ board hv]
      dsimp only
      cases hf2 : List.find? (fun i => check_win (board.set i p) p)
          (get_valid_actions board) with
      | some i => rfl
      | none =>
        cases hf3 : [0,2,6,8].find? (fun i => cell board i == '_') with
        | some i => rfl
        | none =>
          by_cases h4 : (cell board 4 == '_') = true
          · simp [h4]
          · rw [if_neg h4]
            cases hf4 : [1,3,5,7].find? (fun i => cell board i == '_') with
            | some i => rfl
            | none => rfl

lemma computer_move_snd (board : List Char) (s p : Char) (k : Nat)
    (h9 : board.length = 9) :
    (computer_move board s p k).2 = computer_move_priority board s p ∧
    ((computer_move board s p k).2 = none ↔ get_valid_actions board = []) := by
  have hv : ∀ i ∈ get_valid_actions board, cell board i = '_' :=
    fun i hi => (mem_get_valid_actions hi).2
  simp only [computer_move, computer_move_priority]
  by_cases he : (get_valid_actions board).isEmpty = true
  · have hnil : get_valid_actions board = [] := List.isEmpty_iff.mp he
    exact ⟨by simp [he], by simp [he, hnil]⟩
  · have hne : ¬ get_valid_actions board = [] :=
      fun hx => he (by rw [List.isEmpty_iff]; exact hx)
    rw [if_neg he, if_neg he, winScan_eq s _ board hv]
    dsimp only
    cases hf1 : List.find? (fun i => check_win (board.set i s) s)
        (get_valid_actions board) with
    | some i => exact ⟨rfl, iff_of_false (by simp) hne⟩
    | none =>
      rw [winScan_eq p _ board hv]
      dsimp only
      cases hf2 : List.find? (fun i => check_win (board.set i p) p)
          (get_valid_actions board) with
      | some i => exact ⟨rfl, iff_of_false (by simp) hne⟩
      | none =>
        cases hf3 : [0,2,6,8].find? (fun i => cell board i == '_') with
        | some i => exact ⟨rfl, iff_of_false (by simp) hne⟩
        | none =>
          by_cases h4 : (cell board 4 == '_') = true
          · refine ⟨by simp [h4], ?_⟩
            rw [if_pos h4]
            exact iff_of_false (by simp) hne
          · rw [if_neg h4, if_neg h4]
            cases hf4 : [1,3,5,7].find? (fun i => cell board i == '_') with
            | some i => exact ⟨rfl, iff_of_false (by simp) hne⟩
            | none =>
              exfalso
              exact hne (no_pattern_no_empty board h9 hf3
                (Bool.not_eq_true _ |>.mp h4) hf4)

lemma foldl_max_le_self (t : List ℚ) : ∀ a : ℚ, a ≤ t.foldl max a := by
  induction t with
  | nil => intro a; exact le_refl a
  | cons b t ih =>
    intro a
    exact le_trans (le_max_left a b) (ih (max a b))

lemma foldl_max_le_of_mem (t : List ℚ) : ∀ (a x : ℚ), x ∈ t → x ≤ t.foldl max a := by
  induction t with
  | nil => intro a x hx; cases hx
  | cons b t ih =>
    intro a x hx
    rcases List.mem_cons.mp hx with h | h
    · subst h
      exact le_trans (le_max_right a x) (foldl_max_le_self t (max a x))
    · exact ih (max a b) x h

lemma foldl_max_mem (t : List ℚ) : ∀ a : ℚ, t.foldl max a = a ∨ t.foldl max a ∈ t := by
  induction t with
  | nil => intro a; exact Or.inl rfl
  | cons b t ih =>
    intro a
    simp only [List.foldl_cons]
    rcases ih (max a b) with h | h
    · rcases max_choice a b with hm | hm
      · exact Or.inl (by rw [h, hm])
      · exact Or.inr (by rw [h, hm]; exact List.mem_cons_self b t)
    · exact Or.inr (List.mem_cons_of_mem b h)

lemma le_listMaxD {l : List ℚ} {x : ℚ} (d : ℚ) (hx : x ∈ l) : x ≤ listMaxD d l := by
  cases l with
  | nil => cases hx
  | cons b t =>
    rcases List.mem_cons.mp hx with h | h
    · subst h; exact foldl_max_le_self t x
    · exact foldl_max_le_of_mem t b x h

lemma listMaxD_mem {l : List ℚ} (d : ℚ) (h : l ≠ []) : listMaxD d l ∈ l := by
  cases l with
  | nil => exact absurd rfl h
  | cons b t =>
    show t.foldl max b ∈ b :: t
    rcases foldl_max_mem t b with hm | hm
    · rw [hm]; exact List.mem_cons_self b t
    · exact List.mem_cons_of_mem b hm

lemma zip_filter_map_fst (acts : List Nat) (f : Nat → ℚ) (m : ℚ) :
    ((acts.zip (acts.map f)).filter (fun p => p.2 == m)).map Prod.fst =
      acts.filter (fun a => f a == m) := by
  induction acts with
  | nil => rfl
  | cons a t ih =>
    simp only [List.map_cons, List.zip_cons_cons, List.filter_cons]
    by_cases h : (f a == m) = true
    · simp only [h, if_true, List.map_cons, ih]
    · simp only [h, Bool.false_eq_true, if_false, ih]

lemma choose_action_none_iff (q : QTable) (board : List Char) (explore : Bool)
    (eps r : ℚ) (kE kB : Nat) :
    choose_action q board explore eps r kE kB = none ↔
      get_valid_actions board = [] := by
  simp only [choose_action]
  by_cases he : (get_valid_actions board).isEmpty = true
  · simp [he, List.isEmpty_iff.mp he]
  · have hne : ¬ get_valid_actions board = [] :=
      fun hx => he (List.isEmpty_iff.mpr hx)
    rw [if_neg he]
    by_cases hx : explore = true ∧ r < eps
    · rw [if_pos hx]
      exact iff_of_false (by simp) hne
    · rw [if_neg hx]
      exact iff_of_false (by simp) hne

lemma choose_action_explore_eq (q : QTable) (board : List Char) (explore : Bool)
    (eps r : ℚ) (kE kB : Nat) (hne : get_valid_actions board ≠ [])
    (hx : explore = true ∧ r < eps) :
    choose_action q board explore eps r kE kB =
      some ((get_valid_actions board).getD
        (kE % (get_valid_actions board).length) 0) := by
  simp only [choose_action]
  rw [if_neg (fun h => hne (List.isEmpty_iff.mp h)), if_pos hx]

lemma choose_action_greedy_eq (q : QTable) (board : List Char) (explore : Bool)
    (eps r : ℚ) (kE kB : Nat) (hne : get_valid_actions board ≠ [])
    (hx : ¬ (explore = true ∧ r < eps)) :
    choose_action q board explore eps r kE kB =
      some ((greedyTies q board).getD
        (kB % (greedyTies q board).length) 0) := by
  simp only [choose_action]
  rw [if_neg (fun h => hne (List.isEmpty_iff.mp h)), if_neg hx,
    zip_filter_map_fst]
  rfl

lemma greedyTies_ne_nil (q : QTable) (board : List Char)
    (hne : get_valid_actions board ≠ []) : greedyTies q board ≠ [] := by
  have hmapne : (get_valid_actions board).map
      (fun a => (q (qkey (get_state board) a)).getD 0) ≠ [] := by
    intro h
    exact hne (List.map_eq_nil_iff.mp h)
  have hmem := listMaxD_mem 0 hmapne
  rw [List.mem_map] at hmem
  obtain ⟨a, ha, hfa⟩ := hmem
  apply List.ne_nil_of_mem (a := a)
  unfold greedyTies
  rw [List.mem_filter]
  exact ⟨ha, by simp [greedyMax, hfa]⟩

lemma getD_mod_mem (l : List Nat) (h : l ≠ []) (k : Nat) :
    l.getD (k % l.length) 0 ∈ l := by
  have hl : 0 < l.length := List.length_pos.mpr h
  have hk : k % l.length < l.length := Nat.mod_lt _ hl
  rw [List.getD_eq_getElem l 0 hk]
  exact List.getElem_mem hk

lemma choose_action_mem (q : QTable) (board : List Char) (explore : Bool)
    (eps r : ℚ) (kE kB a : Nat)
    (h : choose_action q board explore eps r kE kB = some a) :
    a ∈ get_valid_actions board := by
  by_cases hne : get_valid_actions board = []
  · rw [(choose_action_none_iff q board explore eps r kE kB).mpr hne] at h
    cases h
  · by_cases hx : explore = true ∧ r < eps
    · rw [choose_action_explore_eq q board explore eps r kE kB hne hx] at h
      obtain heq := Option.some.inj h
      rw [← heq]
      exact getD_mod_mem _ hne kE
    · rw [choose_action_greedy_eq q board explore eps r kE kB hne hx] at h
      obtain heq := Option.some.inj h
      rw [← heq]
      exact List.mem_of_mem_filter
        (getD_mod_mem _ (greedyTies_ne_nil q board hne) kB)

lemma computer_move_valid (board : List Char) (s p : Char) (k i : Nat)
    (hi : (computer_move board s p k).2 = some i) : cell board i = '_' := by
  have hv : ∀ j ∈ get_valid_actions board, cell board j = '_' :=
    fun j hj => (mem_get_valid_actions hj).2
  simp only [computer_move] at hi
  by_cases he : (get_valid_actions board).isEmpty = true
  · simp [he] at hi
  · have hne : ¬ get_valid_actions board = [] :=
      fun hx => he (by rw [List.isEmpty_iff]; exact hx)
    rw [if_neg he, winScan_eq s _ board hv] at hi
    dsimp only at hi
    cases hf1 : List.find? (fun j => check_win (board.set j s) s)
        (get_valid_actions board) with
    | some j =>
      rw [hf1] at hi
      obtain heq := Option.some.inj hi
      rw [← heq]
      exact hv j (List.mem_of_find?_eq_some hf1)
    | none =>
      rw [hf1, winScan_eq p _ board hv] at hi
      dsimp only at hi
      cases hf2 : List.find? (fun j => check_win (board.set j p) p)
          (get_valid_actions board) with
      | some j =>
        rw [hf2] at hi
        obtain heq := Option.some.inj hi
        rw [← heq]
        exact hv j (List.mem_of_find?_eq_some hf2)
      | none =>
        rw [hf2] at hi
        cases hf3 : [0,2,6,8].find? (fun j => cell board j == '_') with
        | some j =>
          rw [hf3] at hi
          obtain heq := Option.some.inj hi
          rw [← heq]
          have hp := List.find?_some hf3
          simpa using hp
        | none =>
          rw [hf3] at hi
          by_cases h4 : (cell board 4 == '_') = true
          · rw [if_pos h4] at hi
            obtain heq := Option.some.inj hi
            rw [← heq]
            exact beq_iff_eq.mp h4
          · rw [if_neg h4] at hi
            cases hf4 : [1,3,5,7].find? (fun j => cell board j == '_') with
            | some j =>
              rw [hf4] at hi
              obtain heq := Option.some.inj hi
              rw [← heq]
              have hp := List.find?_some hf4
              simpa using hp
            | none =>
              rw [hf4] at hi
              obtain heq := Option.some.inj hi
              rw [← heq]
              exact hv _ (getD_mod_mem _ hne k)

lemma playLoop_succ_noact (rand : Nat → AgentRand) (eps : ℚ) (fuel step : Nat)
    (board : List Char) (q : QTable) (history : List (String × Nat)) (stats : Stats)
    (hc : choose_action q board true eps (rand step).r (rand step).kE
      (rand step).kB = none) :
    playLoop rand eps (fuel+1) step board q history stats =
      ⟨q, board, history, stats, .noMove⟩ := by
  simp only [playLoop, hc]

lemma playLoop_succ_win (rand : Nat → AgentRand) (eps : ℚ) (fuel step : Nat)
    (board : List Char) (q : QTable) (history : List (String × Nat)) (stats : Stats)
    (act : Nat)
    (hc : choose_action q board true eps (rand step).r (rand step).kE
      (rand step).kB = some act)
    (hw : check_win (apply_move board act 'X') 'X' = true) :
    playLoop rand eps (fuel+1) step board q history stats =
      ⟨((history ++ [(get_state board, act)]).reverse).foldl
          (fun qq p => update_q qq p.1 p.2 1
            (get_state (apply_move board act 'X')) []) q,
        apply_move board act 'X', history ++ [(get_state board, act)],
        ⟨stats.games + 1, stats.wins + 1, stats.draws⟩, .agentWin⟩ := by
  simp only [playLoop, hc, hw, if_true]

lemma playLoop_succ_drawA (rand : Nat → AgentRand) (eps : ℚ) (fuel step : Nat)
    (board : List Char) (q : QTable) (history : List (String × Nat)) (stats : Stats)
    (act : Nat)
    (hc : choose_action q board true eps (rand step).r (rand step).kE
      (rand step).kB = some act)
    (hw : check_win (apply_move board act 'X') 'X' = false)
    (hd : is_draw (apply_move board act 'X') = true) :
    playLoop rand eps (fuel+1) step board q history stats =
      ⟨(history ++ [(get_state board, act)]).foldl
          (fun qq p => update_q qq p.1 p.2 (mkRat 1 5)
            (get_state (apply_move board act 'X')) []) q,
        apply_move board act 'X', history ++ [(get_state board, act)],
        ⟨stats.games + 1, stats.wins, stats.draws + 1⟩, .draw⟩ := by
  simp only [playLoop, hc, hw, hd, Bool.false_eq_true, if_false, if_true]

lemma playLoop_succ_compnone (rand : Nat → AgentRand) (eps : ℚ) (fuel step : Nat)
    (board : List Char) (q : QTable) (history : List (String × Nat)) (stats : Stats)
    (act : Nat)
    (hc : choose_action q board true eps (rand step).r (rand step).kE
      (rand step).kB = some act)
    (hw : check_win (apply_move board act 'X') 'X' = false)
    (hd : is_draw (apply_move board act 'X') = false)
    (hcm : (computer_move (apply_move board act 'X') 'O' 'X'
      (rand step).kC).2 = none) :
    playLoop rand eps (fuel+1) step board q history stats =
      ⟨q, (computer_move (apply_move board act 'X') 'O' 'X' (rand step).kC).1,
        history ++ [(get_state board, act)], stats, .noMove⟩ := by
  simp only [playLoop, hc, hw, hd, hcm, Bool.false_eq_true, if_false]

lemma playLoop_succ_lose (rand : Nat → AgentRand) (eps : ℚ) (fuel step : Nat)
    (board : List Char) (q : QTable) (history : List (String × Nat)) (stats : Stats)
    (act ca : Nat)
    (hc : choose_action q board true eps (rand step).r (rand step).kE
      (rand step).kB = some act)
    (hw : check_win (apply_move board act 'X') 'X' = false)
    (hd : is_draw (apply_move board act 'X') = false)
    (hcm : (computer_move (apply_move board act 'X') 'O' 'X'
      (rand step).kC).2 = some ca)
    (hw2 : check_win (apply_move (computer_move (apply_move board act 'X') 'O' 'X'
      (rand step).kC).1 ca 'O') 'O' = true) :
    playLoop rand eps (fuel+1) step board q history stats =
      ⟨update_q q (get_state board) act (-1)
          (get_state (apply_move (computer_move (apply_move board act 'X') 'O' 'X'
            (rand step).kC).1 ca 'O')) [],
        apply_move (computer_move (apply_move board act 'X') 'O' 'X'
          (rand step).kC).1 ca 'O',
        history ++ [(get_state board, act)],
        ⟨stats.games + 1, stats.wins, stats.draws⟩, .agentLose⟩ := by
  simp only [playLoop, hc, hw, hd, hcm, hw2, Bool.false_eq_true, if_false, if_true,
    List.getLastD_concat]

lemma playLoop_succ_drawB (rand : Nat → AgentRand) (eps : ℚ) (fuel step : Nat)
    (board : List Char) (q : QTable) (history : List (String × Nat)) (stats : Stats)
    (act ca : Nat)
    (hc : choose_action q board true eps (rand step).r (rand step).kE
      (rand step).kB = some act)
    (hw : check_win (apply_move board act 'X') 'X' = false)
    (hd : is_draw (apply_move board act 'X') = false)
    (hcm : (computer_move (apply_move board act 'X') 'O' 'X'
      (rand step).kC).2 = some ca)
    (hw2 : check_win (apply_move (computer_move (apply_move board act 'X') 'O' 'X'
      (rand step).kC).1 ca 'O') 'O' = false)
    (hd2 : is_draw (apply_move (computer_move (apply_move board act 'X') 'O' 'X'
      (rand step).kC).1 ca 'O') = true) :
    playLoop rand eps (fuel+1) step board q history stats =
      ⟨(history ++ [(get_state board, act)]).foldl
          (fun qq p => update_q qq p.1 p.2 (mkRat 1 5)
            (get_state (apply_move (computer_move (apply_move board act 'X') 'O' 'X'
              (rand step).kC).1 ca 'O')) []) q,
        apply_move (computer_move (apply_move board act 'X') 'O' 'X'
          (rand step).kC).1 ca 'O',
        history ++ [(get_state board, act)],
        ⟨stats.games + 1, stats.wins, stats.draws + 1⟩, .draw⟩ := by
  simp only [playLoop, hc, hw, hd, hcm, hw2, hd2, Bool.false_eq_true, if_false, if_true]

lemma playLoop_succ_cont (rand : Nat → AgentRand) (eps : ℚ) (fuel step : Nat)
    (board : List Char) (q : QTable) (history : List (String × Nat)) (stats : Stats)
    (act ca : Nat)
    (hc : choose_action q board true eps (rand step).r (rand step).kE
      (rand step).kB = some act)
    (hw : check_win (apply_move board act 'X') 'X' = false)
    (hd : is_draw (apply_move board act 'X') = false)
    (hcm : (computer_move (apply_move board act 'X') 'O' 'X'
      (rand step).kC).2 = some ca)
    (hw2 : check_win (apply_move (computer_move (apply_move board act 'X') 'O' 'X'
      (rand step).kC).1 ca 'O') 'O' = false)
    (hd2 : is_draw (apply_move (computer_move (apply_move board act 'X') 'O' 'X'
      (rand step).kC).1 ca 'O') = false) :
    playLoop rand eps (fuel+1) step board q history stats =
      playLoop rand eps fuel (step+1)
        (apply_move (computer_move (apply_move board act 'X') 'O' 'X'
          (rand step).kC).1 ca 'O')
        q (history ++ [(get_state board, act)]) stats := by
  simp only [playLoop, hc, hw, hd, hcm, hw2, hd2, Bool.false_eq_true, if_false]

/-! ### Claim theorems -/

/-- Claim C1: update_q stores under the key (state, action) exactly
old + ALPHA * (reward + GAMMA * maxNext - old), where old defaults to 0
when the entry is absent and maxNext is the maximum estimate over the
next valid actions, defaulting to 0 when that list is empty; it touches
no other key; and a terminal update (empty next-action list) from an
absent entry with reward 1 stores exactly 0.3. -/
theorem update_q_stores_td_target (q : QTable) (s : String) (a : Nat)
    (r : ℚ) (ns : String) (nas : List Nat) :
    update_q q s a r ns nas (qkey s a) =
      some ((q (qkey s a)).getD 0 + ALPHA * (r + GAMMA *
        listMaxD 0 (nas.map (fun x => (q (qkey ns x)).getD 0)) -
        (q (qkey s a)).getD 0))
    ∧ (∀ kk, kk ≠ qkey s a → update_q q s a r ns nas kk = q kk)
    ∧ (q (qkey s a) = none → update_q q s a 1 ns [] (qkey s a) = some (mkRat 3 10)) := by
  refine ⟨by simp [update_q], fun kk hk => by simp [update_q, hk], fun h0 => ?_⟩
  simp [update_q, h0, listMaxD, ALPHA, GAMMA]

/-- Claim C1 witness: a terminal update with reward 1 on an empty table
stores exactly 0.3 and leaves other keys absent. -/
theorem update_q_stores_td_target_witness :
    update_q (fun _ => none) "____X____" 4 1 "XXX_X____" []
        (qkey "____X____" 4) = some (mkRat 3 10)
    ∧ update_q (fun _ => none) "____X____" 4 1 "XXX_X____" [] "other" = none := by
  have h := update_q_stores_td_target (fun _ => none) "____X____" 4 1 "XXX_X____" []
  exact ⟨h.2.2 rfl, h.2.1 "other" (by decide)⟩

/-- Claim C2: in every episode iteration, terminal credit is assigned as
the code's episode loop prescribes: if the agent's move wins, every
recorded (state, action) pair — the prior history plus the pair just
recorded — receives a terminal update with reward +1, folded in reverse
order of recording, each using the post-win board state as next state
and an empty next-action list; if the opponent's move wins, only the
most recently recorded pair receives a terminal update with reward -1
(all other keys of the table are untouched); if the board becomes full
without a win — after either the agent's or the opponent's move — every
recorded pair receives a terminal update with reward +0.2 in forward
order. -/
theorem play_one_game_terminal_credit (rand : Nat → AgentRand) (eps : ℚ)
    (fuel step : Nat) (board : List Char) (q : QTable)
    (history : List (String × Nat)) (stats : Stats) (act : Nat)
    (hAct : choose_action q board true eps (rand step).r (rand step).kE
      (rand step).kB = some act) :
    (check_win (apply_move board act 'X') 'X' = true →
      playLoop rand eps (fuel+1) step board q history stats =
        ⟨((history ++ [(get_state board, act)]).reverse).foldl
            (fun qq p => update_q qq p.1 p.2 1
              (get_state (apply_move board act 'X')) []) q,
          apply_move board act 'X', history ++ [(get_state board, act)],
          ⟨stats.games + 1, stats.wins + 1, stats.draws⟩, .agentWin⟩)
    ∧ (check_win (apply_move board act 'X') 'X' = false →
       is_draw (apply_move board act 'X') = true →
      playLoop rand eps (fuel+1) step board q history stats =
        ⟨(history ++ [(get_state board, act)]).foldl
            (fun qq p => update_q qq p.1 p.2 (mkRat 1 5)
              (get_state (apply_move board act 'X')) []) q,
          apply_move board act 'X', history ++ [(get_state board, act)],
          ⟨stats.games + 1, stats.wins, stats.draws + 1⟩, .draw⟩)
    ∧ (∀ ca,
       check_win (apply_move board act 'X') 'X' = false →
       is_draw (apply_move board act 'X') = false →
       (computer_move (apply_move board act 'X') 'O' 'X' (rand step).kC).2
         = some ca →
       (check_win (apply_move (computer_move (apply_move board act 'X') 'O' 'X'
           (rand step).kC).1 ca 'O') 'O' = true →
         playLoop rand eps (fuel+1) step board q history stats =
           ⟨update_q q (get_state board) act (-1)
               (get_state (apply_move (computer_move (apply_move board act 'X')
                 'O' 'X' (rand step).kC).1 ca 'O')) [],
             apply_move (computer_move (apply_move board act 'X') 'O' 'X'
               (rand step).kC).1 ca 'O',
             history ++ [(get_state board, act)],
             ⟨stats.games + 1, stats.wins, stats.draws⟩, .agentLose⟩
         ∧ ∀ kk, kk ≠ qkey (get_state board) act →
             (playLoop rand eps (fuel+1) step board q history stats).q kk = q kk)
       ∧ (check_win (apply_move (computer_move (apply_move board act 'X') 'O' 'X'
           (rand step).kC).1 ca 'O') 'O' = false →
          is_draw (apply_move (computer_move (apply_move board act 'X') 'O' 'X'
           (rand step).kC).1 ca 'O') = true →
         playLoop rand eps (fuel+1) step board q history stats =
           ⟨(history ++ [(get_state board, act)]).foldl
               (fun qq p => update_q qq p.1 p.2 (mkRat 1 5)
                 (get_state (apply_move (computer_move (apply_move board act 'X')
                   'O' 'X' (rand step).kC).1 ca 'O')) []) q,
             apply_move (computer_move (apply_move board act 'X') 'O' 'X'
               (rand step).kC).1 ca 'O',
             history ++ [(get_state board, act)],
             ⟨stats.games + 1, stats.wins, stats.draws + 1⟩, .draw⟩)) := by
  refine ⟨playLoop_succ_win rand eps fuel step board q history stats act hAct,
    playLoop_succ_drawA rand eps fuel step board q history stats act hAct,
    fun ca hw hd hcm => ⟨fun hw2 => ⟨playLoop_succ_lose rand eps fuel step board q
      history stats act ca hAct hw hd hcm hw2, ?_⟩,
      playLoop_succ_drawB rand eps fuel step board q history stats act ca
        hAct hw hd hcm⟩⟩
  intro kk hkk
  rw [playLoop_succ_lose rand eps fuel step board q history stats act ca
    hAct hw hd hcm hw2]
  show update_q q (get_state board) act (-1) _ [] kk = q kk
  simp only [update_q, if_neg hkk]

/-- Claim C2 witness: on a board where the agent completes the top row,
the loop ends with an agent win and the just-recorded pair's entry is
driven toward +1 (from 0 to exactly ALPHA = 0.3). -/
theorem play_one_game_terminal_credit_witness :
    (playLoop (fun _ => ⟨1, 0, 0, 0⟩) EPSILON (0+1) 0
        ['X','X','_','O','O','_','_','_','_'] (fun _ => none) []
        ⟨0, 0, 0⟩).outcome = .agentWin
    ∧ (playLoop (fun _ => ⟨1, 0, 0, 0⟩) EPSILON (0+1) 0
        ['X','X','_','O','O','_','_','_','_'] (fun _ => none) []
        ⟨0, 0, 0⟩).q (qkey "XX_OO____" 2) = some (mkRat 3 10) := by
  have h := (play_one_game_terminal_credit (fun _ => ⟨1, 0, 0, 0⟩) EPSILON 0 0
    ['X','X','_','O','O','_','_','_','_'] (fun _ => none) [] ⟨0, 0, 0⟩ 2
    (by decide)).1 (by decide)
  rw [h]
  refine ⟨rfl, ?_⟩
  show (List.foldl _ _ _ : QTable) _ = _
  simp only [List.nil_append, List.reverse_cons, List.reverse_nil,
    List.foldl_cons, List.foldl_nil, update_q, Option.getD_none, List.map_nil,
    listMaxD, if_pos]
  rw [if_pos (by rfl)]
  rw [ALPHA, GAMMA, Rat.mkRat_eq_divInt, Rat.mkRat_eq_divInt]
  norm_num

/-- Claim C3: choose_action returns no action exactly when the board has
no empty cell; when exploring and the draw falls below the exploration
rate it returns a valid action at a uniformly chosen index (every valid
action is reachable); otherwise it returns an action from the set of
valid actions tying the maximum estimate (defaults 0 for unseen pairs),
every tying action is reachable (so the choice is not deterministically
the lowest-index one), the tie set is nonempty, contains only valid
actions achieving the maximum, and the maximum bounds every valid
action's estimate. -/
theorem choose_action_spec (q : QTable) (board : List Char) (explore : Bool)
    (eps r : ℚ) (kE kB : Nat) :
    (choose_action q board explore eps r kE kB = none ↔
      get_valid_actions board = [])
    ∧ (explore = true → r < eps → get_valid_actions board ≠ [] →
        choose_action q board explore eps r kE kB =
          some ((get_valid_actions board).getD
            (kE % (get_valid_actions board).length) 0)
        ∧ ∀ j, j < (get_valid_actions board).length →
            choose_action q board explore eps r j kB =
              some ((get_valid_actions board).getD j 0))
    ∧ ((explore = false ∨ ¬ r < eps) → get_valid_actions board ≠ [] →
        choose_action q board explore eps r kE kB =
          some ((greedyTies q board).getD
            (kB % (greedyTies q board).length) 0)
        ∧ greedyTies q board ≠ []
        ∧ (∀ a ∈ greedyTies q board, a ∈ get_valid_actions board ∧
            (q (qkey (get_state board) a)).getD 0 = greedyMax q board)
        ∧ (∀ a ∈ get_valid_actions board,
            (q (qkey (get_state board) a)).getD 0 ≤ greedyMax q board)
        ∧ (∀ j, j < (greedyTies q board).length →
            choose_action q board explore eps r kE j =
              some ((greedyTies q board).getD j 0))) := by
  refine ⟨choose_action_none_iff q board explore eps r kE kB, ?_, ?_⟩
  · intro hex hlt hne
    refine ⟨choose_action_explore_eq q board explore eps r kE kB hne ⟨hex, hlt⟩, ?_⟩
    intro j hj
    rw [choose_action_explore_eq q board explore eps r j kB hne ⟨hex, hlt⟩,
      Nat.mod_eq_of_lt hj]
  · intro hor hne
    have hx : ¬ (explore = true ∧ r < eps) := by
      rintro ⟨h1, h2⟩
      rcases hor with hf | hn
      · rw [hf] at h1; exact Bool.false_ne_true h1
      · exact hn h2
    refine ⟨choose_action_greedy_eq q board explore eps r kE kB hne hx,
      greedyTies_ne_nil q board hne, ?_, ?_, ?_⟩
    · intro a ha
      have ha' := ha
      unfold greedyTies at ha'
      rw [List.mem_filter] at ha'
      exact ⟨ha'.1, by simpa using ha'.2⟩
    · intro a ha
      exact le_listMaxD 0 (List.mem_map_of_mem _ ha)
    · intro j hj
      rw [choose_action_greedy_eq q board explore eps r kE j hne hx,
        Nat.mod_eq_of_lt hj]

/-- Claim C3 witness: with an empty table every valid action ties, and
with tie index 3 the agent picks action 4 on a board whose valid actions
are 1..8 — not the lowest-index tying action; with an exploring draw
below epsilon and index 5 it picks valid action 6. -/
theorem choose_action_spec_witness :
    choose_action (fun _ => none) ['X','_','_','_','_','_','_','_','_']
        true EPSILON 1 0 3 = some 4
    ∧ greedyTies (fun _ => none) ['X','_','_','_','_','_','_','_','_'] ≠ []
    ∧ choose_action (fun _ => none) ['X','_','_','_','_','_','_','_','_']
        true EPSILON 0 5 0 = some 6 := by
  have h := (choose_action_spec (fun _ => none)
    ['X','_','_','_','_','_','_','_','_'] true EPSILON 1 0 3).2.2
    (Or.inr (by decide)) (by decide)
  have hx := (choose_action_spec (fun _ => none)
    ['X','_','_','_','_','_','_','_','_'] true EPSILON 0 5 0).2.1
    rfl (by decide) (by decide)
  refine ⟨?_, h.2.1, ?_⟩
  · rw [h.1]; decide
  · rw [hx.1]; decide

/-- Claim C4 counterexample: on a full board on which X has completed a
winning line, is_draw still returns true, contradicting the claim that
is_draw returns false on any full board with a win. -/
theorem is_draw_claim_counterexample :
    is_draw ['X','X','X','O','O','X','O','X','O'] = true ∧
    check_win ['X','X','X','O','O','X','O','X','O'] 'X' = true ∧
    '_' ∉ ['X','X','X','O','O','X','O','X','O'] := by decide

/-- Claim C4 (amended): is_draw returns true if and only if the board
contains no empty cell; it performs no win check at all, so callers must
test wins before calling it. -/
theorem is_draw_iff_no_empty_cell (board : List Char) :
    is_draw board = true ↔ '_' ∉ board := by
  simp [is_draw]

/-- Claim C5: for every 9-cell board, computer_move selects its move by
the strict priority order — first winning cell in ascending index order,
else first blocking cell in ascending order, else the first empty corner
in the order 0, 2, 6, 8, else the center 4, else the first empty side in
the order 1, 3, 5, 7 — and it returns no action exactly when the board
has no empty cell. -/
theorem computer_move_priority_order (board : List Char) (s p : Char)
    (k : Nat) (h9 : board.length = 9) :
    (computer_move board s p k).2 = computer_move_priority board s p ∧
    ((computer_move board s p k).2 = none ↔ get_valid_actions board = []) :=
  computer_move_snd board s p k h9

/-- Claim C5 witness: on a board where O can win at cell 2, the move
matches the priority chain (which picks the winning cell 2). -/
theorem computer_move_priority_order_witness :
    (computer_move ['O','O','_','X','X','_','_','_','_'] 'O' 'X' 3).2 =
      computer_move_priority ['O','O','_','X','X','_','_','_','_'] 'O' 'X' ∧
    (computer_move ['O','O','_','X','X','_','_','_','_'] 'O' 'X' 3).2 = some 2 :=
  ⟨(computer_move_priority_order _ 'O' 'X' 3 (by decide)).1, by decide⟩

/-- Claim C6: computer_move leaves the board exactly as it was before
the call on every return path; every hypothetical placement made during
the win-check and block-check scans is reverted. -/
theorem computer_move_preserves_board (board : List Char) (s p : Char) (k : Nat) :
    (computer_move board s p k).1 = board :=
  computer_move_fst board s p k

/-- Claim C7: computer_move is deterministic on 9-cell boards — its
result does not depend on the random draw that only the (unreachable)
uniform fallback branch would consume. -/
theorem computer_move_deterministic (board : List Char) (s p : Char)
    (k1 k2 : Nat) (h9 : board.length = 9) :
    computer_move board s p k1 = computer_move board s p k2 := by
  have e1 := computer_move_fst board s p k1
  have e2 := computer_move_fst board s p k2
  have s1 := (computer_move_snd board s p k1 h9).1
  have s2 := (computer_move_snd board s p k2 h9).1
  exact Prod.ext (e1.trans e2.symm) (s1.trans s2.symm)

/-- Claim C7 witness: two invocations with different random draws agree
on the empty board. -/
theorem computer_move_deterministic_witness :
    computer_move (List.replicate 9 '_') 'O' 'X' 0 =
      computer_move (List.replicate 9 '_') 'O' 'X' 5 :=
  computer_move_deterministic (List.replicate 9 '_') 'O' 'X' 0 5 (by decide)

/-- Claim C8: the exploration rate is updated exactly once per episode
(play_one_game returns nextEpsilon of its input), each step equals
max(MIN_EPSILON, previous * EPSILON_DECAY), the sequence is monotonically
non-increasing, and it never drops below MIN_EPSILON. -/
theorem epsilon_decay_invariant : ∀ n : Nat,
    (∀ rand fuel q stats,
      (play_one_game rand (epsilonSeq n) fuel q stats).2 = epsilonSeq (n+1))
    ∧ epsilonSeq (n+1) = max MIN_EPSILON (epsilonSeq n * EPSILON_DECAY)
    ∧ epsilonSeq (n+1) ≤ epsilonSeq n
    ∧ MIN_EPSILON ≤ epsilonSeq n := by
  have hfloor : ∀ n, MIN_EPSILON ≤ epsilonSeq n := by
    intro n
    induction n with
    | zero =>
      show MIN_EPSILON ≤ EPSILON
      decide
    | succ m ih => exact le_max_left _ _
  intro n
  refine ⟨fun rand fuel q stats => rfl, rfl, ?_, hfloor n⟩
  have h0 : (0:ℚ) ≤ epsilonSeq n :=
    le_trans (by decide) (hfloor n)
  apply max_le (hfloor n)
  calc epsilonSeq n * EPSILON_DECAY ≤ epsilonSeq n * 1 := by
        apply mul_le_mul_of_nonneg_left ?_ h0
        decide
    _ = epsilonSeq n := mul_one _

/-- Claim C9 counterexample: the episode loop's sole mutation point is a
raw cell assignment with no validity check — applying a mark to an
already occupied cell (an action outside the valid actions) is silently
applied: the board changes, no error is reported, and the original
content is overwritten. -/
theorem apply_move_unchecked_counterexample :
    apply_move ['O','_','_','_','_','_','_','_','_'] 0 'X' =
      ['X','_','_','_','_','_','_','_','_']
    ∧ apply_move ['O','_','_','_','_','_','_','_','_'] 0 'X' ≠
      ['O','_','_','_','_','_','_','_','_']
    ∧ 0 ∉ get_valid_actions ['O','_','_','_','_','_','_','_','_'] := by decide

/-- Claim C9 (amended): the board mutation point performs no validity
check (an invalid action would be silently applied), but no invalid
action is ever requested in the episode loop: choose_action and
computer_move only ever return actions whose cell is Empty. -/
theorem loop_moves_always_valid :
    (∀ (q : QTable) (board : List Char) (explore : Bool) (eps r : ℚ)
        (kE kB a : Nat),
      choose_action q board explore eps r kE kB = some a →
        cell board a = '_')
    ∧ (∀ (board : List Char) (s p : Char) (k i : Nat),
      (computer_move board s p k).2 = some i → cell board i = '_') :=
  ⟨fun q board explore eps r kE kB a h =>
    (mem_get_valid_actions (choose_action_mem q board explore eps r kE kB a h)).2,
   fun board s p k i h => computer_move_valid board s p k i h⟩

/-- Claim C9 witness: the agent's chosen action 4 and the opponent's
chosen action 2 both land on cells that are Empty before the move. -/
theorem loop_moves_always_valid_witness :
    cell ['X','_','_','_','_','_','_','_','_'] 4 = '_'
    ∧ cell ['O','O','_','X','X','_','_','_','_'] 2 = '_' :=
  ⟨loop_moves_always_valid.1 (fun _ => none)
      ['X','_','_','_','_','_','_','_','_'] true EPSILON 1 0 3 4 (by decide),
   loop_moves_always_valid.2 ['O','O','_','X','X','_','_','_','_']
      'O' 'X' 0 2 (by decide)⟩

/-- Claim C10: whenever the episode loop terminates because the
opponent's move wins, the episode history is non-empty — the agent
recorded a pair earlier in the same iteration — so the code's access to
the last history entry never indexes an empty sequence. -/
theorem opponent_win_history_nonempty (rand : Nat → AgentRand) (eps : ℚ) :
    ∀ (fuel step : Nat) (board : List Char) (q : QTable)
      (history : List (String × Nat)) (stats : Stats),
      (playLoop rand eps fuel step board q history stats).outcome = .agentLose →
      (playLoop rand eps fuel step board q history stats).history ≠ [] := by
  intro fuel
  induction fuel with
  | zero =>
    intro step board q history stats h
    exact absurd h (by simp [playLoop])
  | succ n ih =>
    intro step board q history stats h
    cases hc : choose_action q board true eps (rand step).r (rand step).kE
        (rand step).kB with
    | none =>
      rw [playLoop_succ_noact rand eps n step board q history stats hc] at h
      exact absurd h (by simp)
    | some act =>
      by_cases hw : check_win (apply_move board act 'X') 'X' = true
      · rw [playLoop_succ_win rand eps n step board q history stats act hc hw] at h
        exact absurd h (by simp)
      · have hw1 : check_win (apply_move board act 'X') 'X' = false :=
          (Bool.not_eq_true _).mp hw
        by_cases hd : is_draw (apply_move board act 'X') = true
        · rw [playLoop_succ_drawA rand eps n step board q history stats act
            hc hw1 hd] at h
          exact absurd h (by simp)
        · have hd1 : is_draw (apply_move board act 'X') = false :=
            (Bool.not_eq_true _).mp hd
          cases hcm : (computer_move (apply_move board act 'X') 'O' 'X'
              (rand step).kC).2 with
          | none =>
            rw [playLoop_succ_compnone rand eps n step board q history stats act
              hc hw1 hd1 hcm] at h
            exact absurd h (by simp)
          | some ca =>
            by_cases hw2 : check_win (apply_move (computer_move
                (apply_move board act 'X') 'O' 'X' (rand step).kC).1 ca 'O')
                'O' = true
            · rw [playLoop_succ_lose rand eps n step board q history stats act ca
                hc hw1 hd1 hcm hw2] at h ⊢
              simp
            · have hw21 : check_win (apply_move (computer_move
                  (apply_move board act 'X') 'O' 'X' (rand step).kC).1 ca 'O')
                  'O' = false := (Bool.not_eq_true _).mp hw2
              by_cases hd2 : is_draw (apply_move (computer_move
                  (apply_move board act 'X') 'O' 'X' (rand step).kC).1 ca 'O')
                  = true
              · rw [playLoop_succ_drawB rand eps n step board q history stats
                  act ca hc hw1 hd1 hcm hw21 hd2] at h
                exact absurd h (by simp)
              · have hd21 : is_draw (apply_move (computer_move
                    (apply_move board act 'X') 'O' 'X' (rand step).kC).1 ca 'O')
                    = false := (Bool.not_eq_true _).mp hd2
                rw [playLoop_succ_cont rand eps n step board q history stats
                  act ca hc hw1 hd1 hcm hw21 hd21] at h ⊢
                exact ih (step+1) _ q _ stats h

/-- Claim C10 witness: a concrete episode in which the opponent wins on
the first iteration ends with a non-empty history. -/
theorem opponent_win_history_nonempty_witness :
    (playLoop (fun _ => ⟨1, 0, 1, 0⟩) EPSILON 3 0
      ['O','O','_','X','_','_','_','_','X'] (fun _ => none) []
      ⟨0, 0, 0⟩).history ≠ [] :=
  opponent_win_history_nonempty (fun _ => ⟨1, 0, 1, 0⟩) EPSILON 3 0
    ['O','O','_','X','_','_','_','_','X'] (fun _ => none) [] ⟨0, 0, 0⟩
    (by decide)

end TicTacToe
